import Mathlib

/-!
Verification of the noise-calibration and error-accounting core of the
dpdemo notebooks (Laplace and Geometric ε-differential-privacy mechanisms
applied to small count tables, plus the ε-vs-error tradeoff sweep).

Tables are embedded as lists of rows of exact numbers (ℤ for integer
tables, ℚ for the continuous Laplace pipeline, ℝ for the calibration and
sweep formulas).  Where the notebooks rely on IEEE float division by zero
(relative error of a zero true cell) the result is modelled by an explicit
extended-value type with the IEEE outcomes (finite, +inf, -inf, NaN).
-/

namespace DPDemo

/-- Rectangular data table: a list of rows, mirroring the notebooks' 2-D
arrays and data frames. -/
abbrev Table (α : Type) := List (List α)

/-- Element-wise addition of two integer tables (`noisytab = truetab + noise`
in the geometric notebook, all values integers). -/
def tabAdd (a b : Table ℤ) : Table ℤ :=
  List.zipWith (List.zipWith (· + ·)) a b

/-- Set the negative cells of a table to zero, the effect of the mask
assignment `noisytabpost[noisytabpost < 0] = 0`. -/
def clampNeg (t : Table ℤ) : Table ℤ :=
  t.map (List.map (fun x => max x 0))

/-- Cell-by-cell absolute error, `errortab = np.abs(noisytabpost - truetab)`. -/
def errortab (pub tr : Table ℤ) : Table ℤ :=
  List.zipWith (List.zipWith (fun a b => |a - b|)) pub tr

/-- Total L1 error, `errorsum = errortab.sum().sum()`. -/
def errorsum (t : Table ℤ) : ℤ :=
  (t.map List.sum).sum

/-- Sum of the absolute values of every cell of a table (the bound
`sum of |noise|` used by the spec). -/
def absSum (t : Table ℤ) : ℤ :=
  (t.map (fun r => (r.map (fun x => |x|)).sum)).sum

/-- Cell access with default 0 outside the table. -/
def cellZ (t : Table ℤ) (i j : ℕ) : ℤ :=
  (t.getD i []).getD j 0

/-- Cell access for rational tables with default 0 outside the table. -/
def cellQ (t : Table ℚ) (i j : ℕ) : ℚ :=
  (t.getD i []).getD j 0

/-- Extended value produced by IEEE float division on exact (integer-valued)
operands: a finite value, one of the two infinities, or NaN. -/
inductive ExtVal
  | fin : ℚ → ExtVal
  | inf : ExtVal
  | ninf : ExtVal
  | nan : ExtVal
deriving DecidableEq

/-- IEEE division semantics for finite integer operands, as performed by
numpy and pandas when evaluating `errortab/truetab`: a nonzero denominator
gives the exact quotient, `a/0` gives `+inf` for `a > 0` and `-inf` for
`a < 0`, and `0/0` gives NaN. -/
def extDivZ (a b : ℤ) : ExtVal :=
  if b ≠ 0 then ExtVal.fin ((a : ℚ) / (b : ℚ))
  else if 0 < a then ExtVal.inf
  else if a < 0 then ExtVal.ninf
  else ExtVal.nan

/-- Cell-by-cell relative error, `pcterrortab = errortab/truetab`. -/
def pcterrortab (err tr : Table ℤ) : Table ExtVal :=
  List.zipWith (List.zipWith extDivZ) err tr

/-- Cell access for extended-value tables; the default outside the table is
NaN (never produced by an in-range nonzero denominator). -/
def cellE (t : Table ExtVal) (i j : ℕ) : ExtVal :=
  (t.getD i []).getD j ExtVal.nan

/-- Laplace scale, `scale = sensitivity/epsilon` (laplace notebook). -/
noncomputable def scale (sensitivity epsilon : ℝ) : ℝ :=
  sensitivity / epsilon

/-- Geometric success probability,
`probability = 1 - np.exp(-epsilon/sensitivity)` (geometric notebook). -/
noncomputable def probability (sensitivity epsilon : ℝ) : ℝ :=
  1 - Real.exp (-epsilon / sensitivity)

/-- Failures relevant to the calibrator: the two errors named by the
specification, and the error the Python source actually can raise when a
plain-float division has a zero denominator. -/
inductive DPError
  | InvalidParameterError
  | ShapeMismatchError
  | ZeroDivisionError
deriving DecidableEq

/-- The Laplace calibration step as implemented: the notebook computes
`scale = sensitivity/epsilon` directly with no validation of its inputs.
The only failure the source can produce is Python's ZeroDivisionError when
epsilon is zero (plain-float division); InvalidParameterError is never
raised. -/
noncomputable def calibLaplace (sensitivity epsilon : ℝ) : Except DPError ℝ :=
  if epsilon = 0 then Except.error DPError.ZeroDivisionError
  else Except.ok (scale sensitivity epsilon)

/-- The Geometric calibration step as implemented: the notebook computes
`probability = 1 - np.exp(-epsilon/sensitivity)` directly with no
validation of its inputs. The only failure the source can produce is
Python's ZeroDivisionError when sensitivity is zero (the plain-float
division `-epsilon/sensitivity`); InvalidParameterError is never raised. -/
noncomputable def calibGeometric (sensitivity epsilon : ℝ) : Except DPError ℝ :=
  if sensitivity = 0 then Except.error DPError.ZeroDivisionError
  else Except.ok (probability sensitivity epsilon)

/-- Round half to even, the rounding used by numpy's `.round()`. -/
def roundHalfEven (q : ℚ) : ℤ :=
  if q - ⌊q⌋ < 1/2 then ⌊q⌋
  else if 1/2 < q - ⌊q⌋ then ⌊q⌋ + 1
  else if ⌊q⌋ % 2 = 0 then ⌊q⌋ else ⌊q⌋ + 1

/-- Cell-wise rounding of a continuous table,
`noisytab.round().astype(np.int)`. -/
def tabRound (t : Table ℚ) : Table ℤ :=
  t.map (List.map roundHalfEven)

/-- Embedding of an integer table into the continuous table type (an
integer array viewed again as floats when post-processing is reapplied). -/
def castTabQ (t : Table ℤ) : Table ℚ :=
  t.map (List.map (fun z : ℤ => (z : ℚ)))

/-- Laplace post-processing: round to nearest integer, convert to int, then
clamp negative cells to zero (laplace notebook,
`noisytabpost = noisytab.round().astype(np.int)` followed by the mask
assignment). -/
def lapPost (t : Table ℚ) : Table ℤ :=
  clampNeg (tabRound t)

/-- Values of the variables `(truetab, noisytab, noisytabpost)` after the
Laplace post-processing cell: `noisytab.round().astype(np.int)` allocates a
fresh array, so the mask assignment mutates only `noisytabpost`; `truetab`
and `noisytab` are untouched. -/
def lapPostCell (truetab : Table ℤ) (noisytab : Table ℚ) :
    Table ℤ × Table ℚ × Table ℤ :=
  (truetab, noisytab, lapPost noisytab)

/-- Values of the variables `(truetab, noisytab, noisytabpost)` after the
geometric post-processing cell: `noisytabpost = noisytab` binds the same
object, so the mask assignment `noisytabpost[noisytabpost < 0] = 0` mutates
the shared array and both names end up holding the clamped table. -/
def geomPostCell (truetab noisytab : Table ℤ) :
    Table ℤ × Table ℤ × Table ℤ :=
  (truetab, clampNeg noisytab, clampNeg noisytab)

/-- Cross-tabulation with reindexing over the full category lists,
`pd.crosstab(...)` followed by `reindex(index=occvalid, columns=sexvalid,
fill_value=0)`: cell (r, c) counts the records equal to (r, c), absent
categories getting count 0. -/
def crosstab (recs : List (String × String)) (rows cols : List String) :
    Table ℤ :=
  rows.map (fun r => cols.map (fun c => (recs.count (r, c) : ℤ)))

/-- Base-10 logarithm, `np.log10`. -/
noncomputable def log10 (x : ℝ) : ℝ :=
  Real.logb 10 x

/-- Half-open arithmetic progression `np.arange(start, stop, step)` for a
positive step: the values `start + i*step` for `0 ≤ i < ⌈(stop-start)/step⌉`. -/
noncomputable def arange (start stop step : ℝ) : List ℝ :=
  (List.range (Int.toNat ⌈(stop - start) / step⌉)).map
    (fun i : ℕ => start + (i : ℝ) * step)

/-- The ε grid of the tradeoff notebook,
`epsset = [10**x for x in np.arange(log10(epsmin), log10(epsmax) + Δ, Δ)]`
with `Δ = (log10(epsmax) - log10(epsmin))/epscnt`. -/
noncomputable def epsset (epsmin epsmax : ℝ) (epscnt : ℕ) : List ℝ :=
  (arange (log10 epsmin)
    (log10 epsmax + (log10 epsmax - log10 epsmin) / epscnt)
    ((log10 epsmax - log10 epsmin) / epscnt)).map
    (fun x => (10 : ℝ) ^ x)

/-- Per-draw L1 error of the tradeoff notebook, `np.abs(noise)`. -/
noncomputable def L1error (noise : ℝ) : ℝ :=
  |noise|

/-- The L1-error column of the tradeoff data frame,
`df['L1error'] = np.abs(df['noise'])`. -/
noncomputable def L1errorCol (noisecol : List ℝ) : List ℝ :=
  noisecol.map L1error

/-- The fixed true table of concrete scenario 1. -/
def truetab1 : Table ℤ :=
  [[18, 19], [13, 16], [10, 10], [8, 5], [0, 1]]

/-- The fixed noise table of concrete scenario 1. -/
def noise1 : Table ℤ :=
  [[0, -1], [-3, 1], [-1, -2], [3, -3], [0, 0]]

/-- C1: with the fixed true table and noise of scenario 1, adding the noise
element-wise and clamping negative cells to zero publishes exactly the
table stated by the spec, and the total L1 error (sum over cells of
|published - true|) is 14. -/
theorem C1_scenario1 :
    clampNeg (tabAdd truetab1 noise1) =
      [[18, 18], [10, 17], [9, 8], [11, 2], [0, 1]] ∧
    errorsum (errortab (clampNeg (tabAdd truetab1 noise1)) truetab1) = 14 := by
  constructor <;> decide

/-- Reading a mapped list at any index, with the image of the original
default as default, is the image of the original read. -/
theorem getD_map_eq {α β : Type} (f : α → β) (d : α) :
    ∀ (l : List α) (i : ℕ), (l.map f).getD i (f d) = f (l.getD i d) := by
  intro l
  induction l with
  | nil => intro i; simp [List.getD]
  | cons x xs ih =>
    intro i
    cases i with
    | zero => simp [List.getD]
    | succ n => rw [List.map_cons, List.getD_cons_succ, List.getD_cons_succ]; exact ih n

/-- Reading a zipWith at an in-range index, with the combination of the two
defaults as default, combines the two reads. -/
theorem getD_zipWith_eq {α β γ : Type} (f : α → β → γ) (da : α) (db : β) :
    ∀ (a : List α) (b : List β) (i : ℕ), i < a.length → i < b.length →
      (List.zipWith f a b).getD i (f da db) = f (a.getD i da) (b.getD i db) := by
  intro a
  induction a with
  | nil => intro b i h _; simp at h
  | cons x xs ih =>
    intro b i h1 h2
    cases b with
    | nil => simp at h2
    | cons y ys =>
      cases i with
      | zero => simp [List.getD]
      | succ n =>
        simpa [List.getD] using
          ih ys n (by simpa using h1) (by simpa using h2)

/-- A property holding for the default and every member of a list holds for
every read. -/
theorem getD_prop {α : Type} (P : α → Prop) (d : α) (hd : P d) :
    ∀ (l : List α), (∀ x ∈ l, P x) → ∀ i : ℕ, P (l.getD i d) := by
  intro l
  induction l with
  | nil => intro _ i; simpa [List.getD] using hd
  | cons x xs ih =>
    intro h i
    cases i with
    | zero => simpa [List.getD] using h x (by simp)
    | succ n =>
      simpa [List.getD] using ih (fun y hy => h y (by simp [hy])) n

/-- Every cell of a table whose rows all consist of nonnegative entries
reads nonnegative. -/
theorem cellZ_nonneg (t : Table ℤ) (h : ∀ r ∈ t, ∀ x ∈ r, 0 ≤ x)
    (i j : ℕ) : 0 ≤ cellZ t i j := by
  have hrow : ∀ x ∈ t.getD i [], 0 ≤ x :=
    getD_prop (fun r => ∀ x ∈ r, 0 ≤ x) [] (by simp) t h i
  exact getD_prop (fun x : ℤ => 0 ≤ x) 0 le_rfl (t.getD i []) hrow j

/-- Clamping commutes with cell reads: every cell of the clamped table is
the max of the original cell and zero (out-of-range cells read 0 = max 0 0). -/
theorem cellZ_clampNeg (t : Table ℤ) (i j : ℕ) :
    cellZ (clampNeg t) i j = max (cellZ t i j) 0 := by
  have h1 := getD_map_eq (List.map (fun x : ℤ => max x 0)) [] t i
  rw [List.map_nil] at h1
  have h2 := getD_map_eq (fun x : ℤ => max x 0) 0 (t.getD i []) j
  rw [max_self] at h2
  unfold cellZ clampNeg
  rw [h1, h2]

/-- C2: for every positive sensitivity and epsilon, the Laplace scale is
exactly sensitivity/epsilon and positive, and the Geometric probability is
exactly 1 − exp(−epsilon/sensitivity) and lies in (0, 1]. -/
theorem C2_calibration (sensitivity epsilon : ℝ)
    (hs : 0 < sensitivity) (he : 0 < epsilon) :
    scale sensitivity epsilon = sensitivity / epsilon ∧
    0 < scale sensitivity epsilon ∧
    probability sensitivity epsilon =
      1 - Real.exp (-(epsilon / sensitivity)) ∧
    0 < probability sensitivity epsilon ∧
    probability sensitivity epsilon ≤ 1 := by
  refine ⟨rfl, div_pos hs he, by rw [probability, neg_div], ?_, ?_⟩
  · have hlt : Real.exp (-epsilon / sensitivity) < 1 :=
      Real.exp_lt_one_iff.mpr (by rw [neg_div]; exact neg_neg_iff_pos.mpr (div_pos he hs))
    have := sub_pos.mpr hlt
    simpa [probability] using this
  · have hpos : 0 < Real.exp (-epsilon / sensitivity) := Real.exp_pos _
    simp only [probability]
    linarith

/-- C2 witness: the calibration correctness theorem instantiated at
sensitivity = 1, epsilon = 1. -/
theorem C2_calibration_witness :
    scale 1 1 = 1 / 1 ∧ 0 < scale 1 1 ∧
    probability 1 1 = 1 - Real.exp (-(1 / 1)) ∧
    0 < probability 1 1 ∧ probability 1 1 ≤ 1 :=
  C2_calibration 1 1 one_pos one_pos

/-- C3 counterexample: at the invalid input sensitivity = −1, epsilon = 2
(so sensitivity ≤ 0), the calibrator does not fail with
InvalidParameterError: it silently returns the computed scale −1/2. -/
theorem C3_counterexample :
    ((-1 : ℝ) ≤ 0 ∨ (2 : ℝ) ≤ 0) ∧
    calibLaplace (-1) 2 = Except.ok ((-1 : ℝ) / 2) ∧
    calibLaplace (-1) 2 ≠ Except.error DPError.InvalidParameterError := by
  have h2 : (2 : ℝ) ≠ 0 := by norm_num
  refine ⟨Or.inl (by norm_num), ?_, ?_⟩
  · rw [calibLaplace, if_neg h2]; rfl
  · rw [calibLaplace, if_neg h2]
    simp

/-- C3 amended: the calibrator performs no parameter validation and never
raises InvalidParameterError: for strictly negative sensitivity and
positive epsilon it does not fail but silently returns the computed
Laplace scale sensitivity/epsilon, which is ≤ 0 (violating the scale > 0
invariant), and likewise returns the computed Geometric probability; at
the boundary sensitivity = 0 the geometric source instead raises Python's
ZeroDivisionError, which is not the InvalidParameterError the claim
requires. -/
theorem C3_no_validation (sensitivity epsilon : ℝ)
    (hs : sensitivity < 0) (he : 0 < epsilon) :
    calibLaplace sensitivity epsilon = Except.ok (sensitivity / epsilon) ∧
    sensitivity / epsilon ≤ 0 ∧
    calibGeometric sensitivity epsilon =
      Except.ok (probability sensitivity epsilon) ∧
    calibGeometric 0 epsilon = Except.error DPError.ZeroDivisionError ∧
    DPError.ZeroDivisionError ≠ DPError.InvalidParameterError := by
  refine ⟨?_, div_nonpos_of_nonpos_of_nonneg hs.le he.le, ?_, ?_, by decide⟩
  · rw [calibLaplace, if_neg (ne_of_gt he)]; rfl
  · rw [calibGeometric, if_neg (ne_of_lt hs)]
  · rw [calibGeometric, if_pos rfl]

/-- C3 witness: the no-validation theorem instantiated at
sensitivity = −1, epsilon = 1. -/
theorem C3_no_validation_witness :
    calibLaplace (-1) 1 = Except.ok ((-1 : ℝ) / 1) ∧
    (-1 : ℝ) / 1 ≤ 0 ∧
    calibGeometric (-1) 1 = Except.ok (probability (-1) 1) ∧
    calibGeometric 0 1 = Except.error DPError.ZeroDivisionError ∧
    DPError.ZeroDivisionError ≠ DPError.InvalidParameterError :=
  C3_no_validation (-1) 1 (by norm_num) one_pos

/-- Characterization of the cell division used for relative error: exact
quotient for nonzero denominator, +inf for a positive numerator over zero,
NaN for zero over zero. -/
theorem extDivZ_spec (a b : ℤ) :
    (b ≠ 0 → extDivZ a b = ExtVal.fin ((a : ℚ) / (b : ℚ))) ∧
    (b = 0 → 0 < a → extDivZ a b = ExtVal.inf) ∧
    (b = 0 → a = 0 → extDivZ a b = ExtVal.nan) := by
  refine ⟨fun hb => by simp [extDivZ, hb],
    fun hb ha => ?_, fun hb ha => ?_⟩
  · simp [extDivZ, hb, ha]
  · simp [extDivZ, hb, ha]

/-- C4 counterexample: with published cell 0 and true cell 0 the absolute
error is 0 and the relative-error table produced by the code holds NaN
(the IEEE result of 0/0), which is not the value 0 the claim states. -/
theorem C4_counterexample :
    errortab [[0]] [[0]] = [[0]] ∧
    pcterrortab (errortab [[0]] [[0]]) [[0]] = [[ExtVal.nan]] ∧
    ExtVal.nan ≠ ExtVal.fin 0 := by
  refine ⟨by decide, by decide, by decide⟩

/-- C4 amended: for every pair of same-shaped published and true tables,
the cell-wise relative error equals absoluteError/true as an exact quotient
when the true cell is nonzero; it is the sentinel +inf (never a division
crash and never silently 0) when the true cell is 0 and the absolute error
is positive; and it is the sentinel NaN (the IEEE result of 0/0, not the
value 0) when both are 0. -/
theorem C4_relative_error (pub tr : Table ℤ) (i j : ℕ)
    (hi1 : i < pub.length) (hi2 : i < tr.length)
    (hj1 : j < (pub.getD i []).length) (hj2 : j < (tr.getD i []).length) :
    cellE (pcterrortab (errortab pub tr) tr) i j =
      extDivZ (cellZ (errortab pub tr) i j) (cellZ tr i j) ∧
    (cellZ tr i j ≠ 0 →
      extDivZ (cellZ (errortab pub tr) i j) (cellZ tr i j) =
        ExtVal.fin ((cellZ (errortab pub tr) i j : ℚ) / (cellZ tr i j : ℚ))) ∧
    (cellZ tr i j = 0 → 0 < cellZ (errortab pub tr) i j →
      extDivZ (cellZ (errortab pub tr) i j) (cellZ tr i j) = ExtVal.inf) ∧
    (cellZ tr i j = 0 → cellZ (errortab pub tr) i j = 0 →
      extDivZ (cellZ (errortab pub tr) i j) (cellZ tr i j) = ExtVal.nan) ∧
    ExtVal.inf ≠ ExtVal.fin 0 ∧ ExtVal.nan ≠ ExtVal.fin 0 := by
  have hspec := extDivZ_spec (cellZ (errortab pub tr) i j) (cellZ tr i j)
  refine ⟨?_, hspec.1, hspec.2.1, hspec.2.2, by decide, by decide⟩
  have hElen : (errortab pub tr).length = min pub.length tr.length := by
    simp [errortab]
  have hiE : i < (errortab pub tr).length := by
    rw [hElen]; exact lt_min hi1 hi2
  have hrowE : (errortab pub tr).getD i [] =
      List.zipWith (fun a b : ℤ => |a - b|) (pub.getD i []) (tr.getD i []) := by
    have h := getD_zipWith_eq (List.zipWith (fun a b : ℤ => |a - b|))
      [] [] pub tr i hi1 hi2
    simpa [errortab] using h
  have hjE : j < ((errortab pub tr).getD i []).length := by
    rw [hrowE, List.length_zipWith]; exact lt_min hj1 hj2
  have houter : (pcterrortab (errortab pub tr) tr).getD i [] =
      List.zipWith extDivZ ((errortab pub tr).getD i []) (tr.getD i []) := by
    have h := getD_zipWith_eq (List.zipWith extDivZ) [] []
      (errortab pub tr) tr i hiE hi2
    simpa [pcterrortab] using h
  have hinner := getD_zipWith_eq extDivZ 0 0
    ((errortab pub tr).getD i []) (tr.getD i []) j hjE hj2
  have h00 : extDivZ 0 0 = ExtVal.nan := by decide
  rw [h00] at hinner
  unfold cellE cellZ
  rw [houter, hinner]

/-- C4 witness: the amended relative-error theorem instantiated at the
1-cell tables with published cell 1 and true cell 0 (the scenario-4 case). -/
theorem C4_relative_error_witness :
    cellE (pcterrortab (errortab [[1]] [[0]]) [[0]]) 0 0 =
      extDivZ (cellZ (errortab [[1]] [[0]]) 0 0) (cellZ [[0]] 0 0) :=
  (C4_relative_error [[1]] [[0]] 0 0 (by decide) (by decide)
    (by decide) (by decide)).1

/-- A list fixed by a map has every member fixed by the mapped function. -/
theorem map_fixed_of_eq {α : Type} (f : α → α) :
    ∀ l : List α, l.map f = l → ∀ x ∈ l, f x = x := by
  intro l
  induction l with
  | nil => intro _ x hx; simp at hx
  | cons a as ih =>
    intro h x hx
    rw [List.map_cons, List.cons.injEq] at h
    rcases List.mem_cons.mp hx with rfl | hx
    · exact h.1
    · exact ih h.2 x hx

/-- C5 counterexample: in the geometric notebook the post-processing cell
aliases the raw noisy table (`noisytabpost = noisytab`), so after the mask
assignment the variable holding the raw noisy table [[-1]] contains the
clamped table [[0]]: the raw pre-post-process value is not retained. -/
theorem C5_counterexample :
    (geomPostCell [[5]] [[-1]]).2.1 = [[0]] ∧ [[(0 : ℤ)]] ≠ [[-1]] := by
  decide

/-- C5 amended: in the Laplace notebook post-processing creates a distinct
value (`round().astype(int)` allocates a new array), leaving the true table
and the raw noisy table unchanged; but in the geometric notebook
`noisytabpost = noisytab` aliases the raw table, so the clamp mutates it in
place: whenever some cell of the raw noisy table is negative, after the
cell the noisytab variable no longer holds the raw noisy table (the true
table is unchanged in both notebooks). -/
theorem C5_post_aliasing (truetabZ : Table ℤ) (noisytabQ : Table ℚ)
    (tt nt : Table ℤ) (hneg : ∃ r ∈ nt, ∃ x ∈ r, x < 0) :
    (lapPostCell truetabZ noisytabQ).1 = truetabZ ∧
    (lapPostCell truetabZ noisytabQ).2.1 = noisytabQ ∧
    (lapPostCell truetabZ noisytabQ).2.2 = lapPost noisytabQ ∧
    (geomPostCell tt nt).1 = tt ∧
    (geomPostCell tt nt).2.1 = clampNeg nt ∧
    (geomPostCell tt nt).2.1 ≠ nt := by
  refine ⟨rfl, rfl, rfl, rfl, rfl, ?_⟩
  intro heq
  obtain ⟨r, hr, x, hx, hxneg⟩ := hneg
  have heq' : nt.map (List.map (fun y : ℤ => max y 0)) = nt := heq
  have hrow := map_fixed_of_eq (List.map (fun y : ℤ => max y 0)) nt heq' r hr
  have hcell := map_fixed_of_eq (fun y : ℤ => max y 0) r hrow x hx
  have hge : (0 : ℤ) ≤ x := hcell ▸ le_max_right x 0
  exact absurd hxneg (not_lt.mpr hge)

/-- C5 witness: the aliasing theorem instantiated at concrete tables, the
geometric raw noisy table holding the negative cell -2. -/
theorem C5_post_aliasing_witness :
    (lapPostCell [[3]] [[(1 : ℚ)]]).1 = [[3]] ∧
    (lapPostCell [[3]] [[(1 : ℚ)]]).2.1 = [[(1 : ℚ)]] ∧
    (lapPostCell [[3]] [[(1 : ℚ)]]).2.2 = lapPost [[(1 : ℚ)]] ∧
    (geomPostCell [[5]] [[-2]]).1 = [[5]] ∧
    (geomPostCell [[5]] [[-2]]).2.1 = clampNeg [[-2]] ∧
    (geomPostCell [[5]] [[-2]]).2.1 ≠ [[-2]] :=
  C5_post_aliasing [[3]] [[(1 : ℚ)]] [[5]] [[-2]] (by decide)

/-- Reading the rational view of an integer table is the cast of the
integer read. -/
theorem cellQ_castTabQ (t : Table ℤ) (i j : ℕ) :
    cellQ (castTabQ t) i j = ((cellZ t i j : ℤ) : ℚ) := by
  have h1 := getD_map_eq (List.map (fun z : ℤ => (z : ℚ))) [] t i
  rw [List.map_nil] at h1
  have h2 := getD_map_eq (fun z : ℤ => (z : ℚ)) 0 (t.getD i []) j
  rw [Int.cast_zero] at h2
  unfold cellQ castTabQ cellZ
  rw [h1, h2]

/-- C6: every cell of a cross-tabulated true table is nonnegative before
noising; every cell of a clamped noisy table is nonnegative; and the
Laplace published table (rounded to integers, then clamped) has every cell
nonnegative and integer-valued when viewed as a table of floats. -/
theorem C6_nonneg :
    (∀ (recs : List (String × String)) (rows cols : List String) (i j : ℕ),
      0 ≤ cellZ (crosstab recs rows cols) i j) ∧
    (∀ (nt : Table ℤ) (i j : ℕ), 0 ≤ cellZ (clampNeg nt) i j) ∧
    (∀ (nq : Table ℚ) (i j : ℕ), 0 ≤ cellZ (lapPost nq) i j) ∧
    (∀ (nq : Table ℚ) (i j : ℕ),
      ∃ z : ℤ, cellQ (castTabQ (lapPost nq)) i j = (z : ℚ)) := by
  refine ⟨fun recs rows cols i j => ?_, fun nt i j => ?_,
    fun nq i j => ?_, fun nq i j => ?_⟩
  · refine cellZ_nonneg _ ?_ i j
    intro r hr x hx
    obtain ⟨a, _, rfl⟩ := List.mem_map.mp hr
    obtain ⟨c, _, rfl⟩ := List.mem_map.mp hx
    exact Int.natCast_nonneg _
  · rw [cellZ_clampNeg]; exact le_max_right _ _
  · rw [lapPost, cellZ_clampNeg]; exact le_max_right _ _
  · exact ⟨cellZ (lapPost nq) i j, cellQ_castTabQ _ i j⟩

/-- A map whose function is idempotent is idempotent on every list. -/
theorem map_idem {α : Type} (f : α → α) (hf : ∀ x, f (f x) = f x) :
    ∀ l : List α, (l.map f).map f = l.map f := by
  intro l
  induction l with
  | nil => simp
  | cons x xs ih => simp [hf, ih]

/-- Maps of pointwise-equal functions agree. -/
theorem map_ext_eq {α β : Type} (f g : α → β) (h : ∀ x, f x = g x) :
    ∀ l : List α, l.map f = l.map g := by
  intro l
  induction l with
  | nil => rfl
  | cons x xs ih => simp [h, ih]

/-- Rounding half to even fixes every integer. -/
theorem roundHalfEven_intCast (z : ℤ) : roundHalfEven (z : ℚ) = z := by
  unfold roundHalfEven
  rw [Int.floor_intCast]
  norm_num

/-- C7: the declared post-processing policies are idempotent: reapplying
the Laplace policy (round to nearest integer, then clamp negatives to zero)
to its own output returns that output unchanged, and likewise the
clamp-only geometric policy. -/
theorem C7_idempotent :
    (∀ t : Table ℚ, lapPost (castTabQ (lapPost t)) = lapPost t) ∧
    (∀ u : Table ℤ, clampNeg (clampNeg u) = clampNeg u) := by
  constructor
  · intro t
    simp only [lapPost, clampNeg, tabRound, castTabQ, List.map_map]
    apply map_ext_eq
    intro r
    simp only [Function.comp_apply, List.map_map]
    apply map_ext_eq
    intro q
    simp only [Function.comp_apply]
    rw [roundHalfEven_intCast, max_assoc, max_self]
  · intro u
    simp only [clampNeg, List.map_map]
    apply map_ext_eq
    intro r
    exact map_idem (fun x : ℤ => max x 0)
      (fun x => by show max (max x 0) 0 = max x 0; rw [max_assoc, max_self]) r

/-- C8: for 0 < εmin < εmax and a positive count, the ε grid built by the
tradeoff notebook has exactly count+1 points; its first point is exactly
εmin, its last is exactly εmax, and point i is
10^(log10 εmin + i·Δ) with Δ = (log10 εmax − log10 εmin)/count. -/
theorem C8_epsgrid (epsmin epsmax : ℝ) (epscnt : ℕ)
    (h0 : 0 < epsmin) (h1 : epsmin < epsmax) (h2 : 0 < epscnt) :
    (epsset epsmin epsmax epscnt).length = epscnt + 1 ∧
    (epsset epsmin epsmax epscnt).getD 0 0 = epsmin ∧
    (epsset epsmin epsmax epscnt).getD epscnt 0 = epsmax ∧
    ∀ i : ℕ, i ≤ epscnt →
      (epsset epsmin epsmax epscnt).getD i 0 =
        (10 : ℝ) ^ (log10 epsmin +
          (i : ℝ) * ((log10 epsmax - log10 epsmin) / epscnt)) := by
  have hcntR : (0 : ℝ) < epscnt := by exact_mod_cast h2
  have hL : 0 < log10 epsmax - log10 epsmin := by
    have := Real.logb_lt_logb (show (1 : ℝ) < 10 by norm_num) h0 h1
    simpa [log10] using sub_pos.mpr this
  have hΔ : 0 < (log10 epsmax - log10 epsmin) / epscnt :=
    div_pos hL hcntR
  have hcM : (epscnt : ℝ) * ((log10 epsmax - log10 epsmin) / epscnt) =
      log10 epsmax - log10 epsmin := by
    field_simp
  have hratio : (log10 epsmax + (log10 epsmax - log10 epsmin) / epscnt -
      log10 epsmin) / ((log10 epsmax - log10 epsmin) / epscnt) =
      (epscnt : ℝ) + 1 := by
    have hsplit : log10 epsmax + (log10 epsmax - log10 epsmin) / epscnt -
        log10 epsmin =
        ((epscnt : ℝ) + 1) * ((log10 epsmax - log10 epsmin) / epscnt) := by
      rw [add_mul, one_mul, hcM]; ring
    rw [hsplit, mul_div_cancel_right₀ _ (ne_of_gt hΔ)]
  have hceil : ⌈(log10 epsmax + (log10 epsmax - log10 epsmin) / epscnt -
      log10 epsmin) / ((log10 epsmax - log10 epsmin) / epscnt)⌉ =
      (epscnt : ℤ) + 1 := by
    rw [hratio, show ((epscnt : ℝ) + 1) = ((epscnt + 1 : ℕ) : ℝ) by push_cast; ring,
      Int.ceil_natCast]
    push_cast; ring
  have hlen : (epsset epsmin epsmax epscnt).length = epscnt + 1 := by
    rw [epsset, List.length_map, arange, List.length_map, List.length_range,
      hceil]
    omega
  have hpt : ∀ i : ℕ, i ≤ epscnt →
      (epsset epsmin epsmax epscnt).getD i 0 =
        (10 : ℝ) ^ (log10 epsmin +
          (i : ℝ) * ((log10 epsmax - log10 epsmin) / epscnt)) := by
    intro i hi
    have hilen : i < (epsset epsmin epsmax epscnt).length := by
      rw [hlen]; omega
    rw [List.getD_eq_getElem _ _ hilen]
    simp only [epsset, arange]
    rw [List.getElem_map, List.getElem_map, List.getElem_range]
  refine ⟨hlen, ?_, ?_, hpt⟩
  · rw [hpt 0 (Nat.zero_le _)]
    simp only [Nat.cast_zero, zero_mul, add_zero, log10]
    exact Real.rpow_logb (by norm_num) (by norm_num) h0
  · rw [hpt epscnt le_rfl]
    rw [hcM]
    rw [show log10 epsmin + (log10 epsmax - log10 epsmin) = log10 epsmax by ring]
    exact Real.rpow_logb (by norm_num) (by norm_num) (h0.trans h1)

/-- C8 witness: the grid theorem instantiated at εmin = 0.1, εmax = 10,
count = 20: 21 points, first 0.1, last 10. -/
theorem C8_epsgrid_witness :
    (epsset (1 / 10) 10 20).length = 21 ∧
    (epsset (1 / 10) 10 20).getD 0 0 = 1 / 10 ∧
    (epsset (1 / 10) 10 20).getD 20 0 = 10 := by
  obtain ⟨ha, hb, hc, _⟩ :=
    C8_epsgrid (1 / 10) 10 20 (by norm_num) (by norm_num) (by norm_num)
  exact ⟨ha, hb, hc⟩

/-- C9: every entry of the L1-error column recorded by the tradeoff
simulator equals the absolute value of the corresponding noise entry, and
for every true value n, |n − (n + noise)| is exactly that recorded error:
the per-draw L1 error does not depend on the data. -/
theorem C9_L1error_noise :
    ∀ (noisecol : List ℝ) (i : ℕ) (n : ℝ),
      (L1errorCol noisecol).getD i 0 = |noisecol.getD i 0| ∧
      |n - (n + noisecol.getD i 0)| = (L1errorCol noisecol).getD i 0 := by
  intro noisecol i n
  have h := getD_map_eq L1error 0 noisecol i
  rw [show L1error 0 = 0 by simp [L1error]] at h
  refine ⟨?_, ?_⟩
  · rw [L1errorCol, h, L1error]
  · rw [L1errorCol, h, L1error,
      show n - (n + noisecol.getD i 0) = -(noisecol.getD i 0) by ring,
      abs_neg]

/-- Clamping a cell at zero never moves it further from a nonnegative true
value. -/
theorem clamp_abs_sub_le (a c : ℤ) (ha : 0 ≤ a) :
    |max c 0 - a| ≤ |c - a| := by
  rcases le_or_lt 0 c with h | h
  · rw [max_eq_left h]
  · rw [max_eq_right h.le, zero_sub, abs_neg, abs_of_nonneg ha,
      abs_of_nonpos (by linarith : c - a ≤ 0)]
    linarith

/-- Row version of the clamped-error bound: the summed absolute error of a
clamped noisy row against a nonnegative true row is at most the summed
absolute noise. -/
theorem row_clamped_err_le :
    ∀ (r e : List ℤ), (∀ x ∈ r, 0 ≤ x) →
      (List.zipWith (fun a b => |a - b|)
        ((List.zipWith (· + ·) r e).map (fun x => max x 0)) r).sum ≤
      (e.map (fun x => |x|)).sum := by
  intro r
  induction r with
  | nil =>
    intro e _
    simp only [List.zipWith_nil_left, List.map_nil, List.zipWith_nil_right,
      List.sum_nil]
    exact List.sum_nonneg (fun y hy => by
      obtain ⟨x, _, rfl⟩ := List.mem_map.mp hy
      exact abs_nonneg x)
  | cons a r' ih =>
    intro e h
    cases e with
    | nil => simp
    | cons x e' =>
      simp only [List.zipWith_cons_cons, List.map_cons, List.sum_cons]
      have ha : 0 ≤ a := h a (by simp)
      have h1 : |max (a + x) 0 - a| ≤ |x| := by
        have h2 := clamp_abs_sub_le a (a + x) ha
        rw [show a + x - a = x by ring] at h2
        exact h2
      exact add_le_add h1 (ih e' (fun y hy => h y (by simp [hy])))

/-- Table version of the clamped-error bound: the total L1 error of the
clamped noisy table against a nonnegative true table is at most the sum of
the absolute noise over all cells. -/
theorem table_clamped_err_le :
    ∀ (t η : Table ℤ), (∀ r ∈ t, ∀ x ∈ r, 0 ≤ x) →
      errorsum (errortab (clampNeg (tabAdd t η)) t) ≤ absSum η := by
  intro t
  induction t with
  | nil =>
    intro η _
    simp only [tabAdd, List.zipWith_nil_left, clampNeg, List.map_nil,
      errortab, errorsum, List.sum_nil, absSum]
    exact List.sum_nonneg (fun y hy => by
      obtain ⟨rr, _, rfl⟩ := List.mem_map.mp hy
      exact List.sum_nonneg (fun z hz => by
        obtain ⟨x, _, rfl⟩ := List.mem_map.mp hz
        exact abs_nonneg x))
  | cons r t' ih =>
    intro η h
    cases η with
    | nil => simp [tabAdd, clampNeg, errortab, errorsum, absSum]
    | cons e η' =>
      simp only [tabAdd, clampNeg, errortab, errorsum, absSum,
        List.zipWith_cons_cons, List.map_cons, List.sum_cons]
      exact add_le_add (row_clamped_err_le r e (h r (by simp)))
        (ih η' (fun rr hrr => h rr (by simp [hrr])))

/-- C10: for a true table with nonnegative cells and any noise, clamping
negative cells to zero never increases any cell's absolute error, and the
total L1 error of the published (clamped) table is at most the sum of the
absolute noise over all cells. -/
theorem C10_clamp_error (t η : Table ℤ) (h : ∀ r ∈ t, ∀ x ∈ r, 0 ≤ x) :
    (∀ i j : ℕ,
      |cellZ (clampNeg (tabAdd t η)) i j - cellZ t i j| ≤
      |cellZ (tabAdd t η) i j - cellZ t i j|) ∧
    errorsum (errortab (clampNeg (tabAdd t η)) t) ≤ absSum η := by
  refine ⟨fun i j => ?_, table_clamped_err_le t η h⟩
  rw [cellZ_clampNeg]
  exact clamp_abs_sub_le (cellZ t i j) (cellZ (tabAdd t η) i j)
    (cellZ_nonneg t h i j)

/-- C10 witness: the clamped-error bound instantiated at the true table
[[0, 1]] and noise [[-1, 2]] (the first cell is clamped). -/
theorem C10_clamp_error_witness :
    errorsum (errortab (clampNeg (tabAdd [[0, 1]] [[-1, 2]])) [[0, 1]]) ≤
    absSum [[-1, 2]] :=
  (C10_clamp_error [[0, 1]] [[-1, 2]] (by decide)).2

end DPDemo
